import Mathlib

/-!
Verification of the volume-boundary splitting and sparse collation layer of
`mlreco/iotools/collates.py` (class `VolumeBoundaries` and function
`CollateSparse`), shallowly embedded over exact rational arithmetic.

Conventions of the embedding:
* numpy scalar values are modelled as `ℚ` (the source only ever adds,
  subtracts, compares and truncates them, all exact here);
* Python `int(x)` (C-style truncation toward zero, also the effect of
  assigning a float into an `np.int32` array) is `pyInt`;
* Python `list.sort()` and `np.lexsort` are stable sorts, modelled with
  `List.insertionSort` (stable, kernel-evaluable);
* `np.meshgrid(...).T.reshape(-1, dim)` is reproduced exactly, including
  the axis order produced by meshgrid's default `'xy'` indexing followed
  by transposition and C-order reshape (`comboList` below);
* fallible Python code (assertions, numpy shape errors, indexing errors)
  returns `Option`/`Except`.
-/

section RatEval

attribute [local semireducible] Rat.add Rat.sub Rat.mul Rat.inv Rat.ofScientific

/-- Python `int(q)`: truncation toward zero. `q.num.tdiv q.den` since
`tdiv` is T-division (rounds toward zero) and `q.den > 0`. -/
def pyInt (q : ℚ) : ℤ := q.num.tdiv q.den

/-- One entry of the `boundaries` configuration list, exactly the three
shapes accepted by the sanity check in `VolumeBoundaries.__init__`:
the string `'None'`, the Python value `None`, or a list of cut values. -/
inductive BDef where
  | noneStr : BDef
  | pyNone : BDef
  | cuts : List ℚ → BDef
deriving DecidableEq, Repr

/-- Python `list.sort()` on a list of scalars (ascending, stable). -/
def pySort (l : List ℚ) : List ℚ := l.insertionSort (· ≤ ·)

/-- Normalization of one boundary entry performed by the constructor loop:
`'None'` is replaced by `None`, `None` is kept, a list must be non-empty
(assertion) and is sorted ascending in place. `none` models an
`AssertionError`. -/
def normEntry : BDef → Option (Option (List ℚ))
  | .noneStr => some none
  | .pyNone => some none
  | .cuts l => if l.isEmpty then none else some (some (pySort l))

/-- The value an entry of the caller's `definitions` list holds after the
constructor ran (the constructor aliases and mutates that list in place). -/
def postEntry : BDef → BDef
  | .noneStr => .pyNone
  | .pyNone => .pyNone
  | .cuts l => .cuts (pySort l)

/-- Sequential normalization of the whole `definitions` list; any failed
assertion aborts the constructor. -/
def traverseNorm : List BDef → Option (List (Option (List ℚ)))
  | [] => some []
  | e :: rest =>
    match normEntry e, traverseNorm rest with
    | some b, some bs => some (b :: bs)
    | _, _ => none

/-- `n_boundaries[n] + 1`: the number of bins along one dimension. -/
def binCount : Option (List ℚ) → ℕ
  | none => 1
  | some l => l.length + 1

/-- Cartesian product of `List.range s` over the given sizes, first size
slowest-varying (C-order nesting). -/
def prodEnum : List ℕ → List (List ℕ)
  | [] => [[]]
  | s :: rest => (List.range s).flatMap (fun i => (prodEnum rest).map (fun t => i :: t))

/-- Axis order (slowest-varying first) realized by
`np.array(np.meshgrid(*a)).T.reshape(-1, d)` with default `'xy'` indexing:
meshgrid swaps the first two axes, transposition reverses all axes, and the
C-order reshape then iterates axes `d-1, ..., 2, 0, 1` from slow to fast
(just `[0]` for `d = 1`). -/
def axesOrder (d : ℕ) : List ℕ :=
  if d ≤ 1 then List.range d else ((List.range d).drop 2).reverse ++ [0, 1]

/-- `self.combo`: the enumeration of all volumes as per-dimension bin-index
vectors, in the exact order produced by the meshgrid/transpose/reshape
expression of the constructor. -/
def comboList (sizes : List ℕ) : List (List ℕ) :=
  let d := sizes.length
  let ax := axesOrder d
  (prodEnum (ax.map (fun n => sizes.getD n 0))).map
    (fun t => (List.range d).map (fun n => t.getD (ax.indexOf n) 0))

/-- `self.shifts[n]`: shift 0 for bin 0, the `(i-1)`-th cut for bin `i > 0`,
and the last cut again for the final bin. -/
def dimShifts : Option (List ℚ) → List ℚ
  | none => [0]
  | some l =>
    (List.range l.length).map (fun i => if i = 0 then 0 else l.getD (i - 1) 0) ++ [l.getLastD 0]

/-- The state `VolumeBoundaries.__init__` computes: dimension count,
normalized boundaries, volume enumeration `combo` and shift table. -/
structure VolumeBoundaries where
  dim : ℕ
  boundaries : List (Option (List ℚ))
  combo : List (List ℕ)
  shifts : List (List ℚ)
deriving DecidableEq, Repr

/-- `VolumeBoundaries(definitions)`. Returns the constructed state together
with the post-call contents of the caller's `definitions` list (the
constructor aliases it as `self.boundaries` and mutates it in place).
`none` models a raised exception: a failed per-entry assertion, or the
numpy reshape error raised for an empty definitions list. -/
def VolumeBoundaries.init (definitions : List BDef) :
    Option (VolumeBoundaries × List BDef) :=
  if definitions.isEmpty then none else
  match traverseNorm definitions with
  | none => none
  | some bs =>
    some (⟨definitions.length, bs, comboList (bs.map binCount), bs.map dimShifts⟩,
          definitions.map postEntry)

/-- `VolumeBoundaries.num_volumes`. -/
def VolumeBoundaries.num_volumes (vb : VolumeBoundaries) : ℕ := vb.combo.length

/-- `VolumeBoundaries.virtual_batch_ids`:
`np.arange(len(self.combo)) + entry * self.num_volumes()`. -/
def VolumeBoundaries.virtual_batch_ids (vb : VolumeBoundaries) (entry : ℕ := 0) : List ℕ :=
  (List.range vb.combo.length).map (fun i => i + entry * vb.num_volumes)

/-- `self.shifts[n][i]`. -/
def VolumeBoundaries.binShift (vb : VolumeBoundaries) (n i : ℕ) : ℚ :=
  (vb.shifts.getD n []).getD i 0

/-- `self.combo[volume]`. -/
def VolumeBoundaries.comboOf (vb : VolumeBoundaries) (volume : ℕ) : List ℕ :=
  vb.combo.getD volume []

/-- `self.shifts[n][self.combo[volume][n]]`. -/
def VolumeBoundaries.shiftOf (vb : VolumeBoundaries) (volume n : ℕ) : ℚ :=
  vb.binShift n ((vb.comboOf volume).getD n 0)

/-- The integer shift vector `[int(self.shifts[n][self.combo[volume][n]])
for n in range(dim)]` applied by `translate`/`untranslate`. -/
def VolumeBoundaries.intShiftVec (vb : VolumeBoundaries) (volume : ℕ) : List ℚ :=
  (List.range vb.dim).map (fun n => (pyInt (vb.shiftOf volume n) : ℚ))

/-- `VolumeBoundaries.translate`: adds each dimension's truncated shift
(under the source's asserts `0 ≤ volume < num_volumes` and
`voxels.shape[-1] == dim`, carried as hypotheses of the theorems). -/
def VolumeBoundaries.translate (vb : VolumeBoundaries) (voxels : List ℚ) (volume : ℕ) :
    List ℚ :=
  List.zipWith (fun a s => a + s) voxels (vb.intShiftVec volume)

/-- `VolumeBoundaries.untranslate`: subtracts each dimension's truncated
shift. -/
def VolumeBoundaries.untranslate (vb : VolumeBoundaries) (voxels : List ℚ) (volume : ℕ) :
    List ℚ :=
  List.zipWith (fun a s => a - s) voxels (vb.intShiftVec volume)

/-- One boolean mask entry of `all_boundaries[n]`, evaluated at a single
coordinate value `q`: for a dimension without boundaries the single mask is
all-ones; for cuts `l` mask `i < len(l)` is `q < l[i]` and the final mask is
`q >= l[-1]`. -/
def binMatch (b : Option (List ℚ)) (i : ℕ) (q : ℚ) : Bool :=
  match b with
  | none => true
  | some l => if i < l.length then decide (q < l.getD i 0) else decide (l.getLastD 0 ≤ q)

/-- The conjunction mask `m` of one volume (`np.logical_and` over the
dimensions), evaluated at one coordinate row `c`. -/
def VolumeBoundaries.rowMatch (vb : VolumeBoundaries) (cv : List ℕ) (c : List ℚ) : Bool :=
  (List.range vb.dim).all (fun n => binMatch (vb.boundaries.getD n none) (cv.getD n 0) (c.getD n 0))

/-- The volumes (with their enumeration index) whose conjunction mask
contains a given coordinate row; `split` loops over exactly these for the
row, overwriting the row's virtual batch id and subtracting shifts once per
element. -/
def VolumeBoundaries.matchingCombos (vb : VolumeBoundaries) (c : List ℚ) : List (ℕ × List ℕ) :=
  vb.combo.enum.filter (fun p => vb.rowMatch p.2 c)

/-- The number of per-volume boolean masks containing a coordinate row,
i.e. the elementwise sum over volumes of the boolean masks at that row. -/
def VolumeBoundaries.maskCount (vb : VolumeBoundaries) (c : List ℚ) : ℕ :=
  (vb.combo.filter (fun cv => vb.rowMatch cv c)).length

/-- The truncated shift vector `[int(self.shifts[n][c[n]]) for n in
range(dim)]` subtracted by `split` for the volume with bin vector `cv`. -/
def VolumeBoundaries.comboIntShifts (vb : VolumeBoundaries) (cv : List ℕ) : List ℚ :=
  (List.range vb.dim).map (fun n => (pyInt (vb.binShift n (cv.getD n 0)) : ℚ))

/-- The effect of the volume loop of `split` on one voxel row
`b :: c` (original batch id, then coordinates): every matching volume
subtracts its truncated shift vector from the coordinates (the masks are
computed once, from the original coordinates), and the virtual batch id —
an `np.int32` cell initialized to 0 — is overwritten with
`int(idx + b * num_volumes)` by every matching volume, so the last match
wins. -/
def VolumeBoundaries.splitRow (vb : VolumeBoundaries) (r : List ℚ) : List ℚ :=
  let b := r.headD 0
  let c := r.tail
  let ms := vb.matchingCombos c
  let vbid : ℚ :=
    match ms.getLast? with
    | some p => (pyInt ((p.1 : ℚ) + b * (vb.num_volumes : ℚ)) : ℚ)
    | none => 0
  let c2 := ms.foldl (fun acc p => List.zipWith (fun a s => a - s) acc (vb.comboIntShifts p.2)) c
  vbid :: c2

/-- `new_voxels` of `VolumeBoundaries.split`: the per-row transform applied
to each input row. -/
def VolumeBoundaries.splitRows (vb : VolumeBoundaries) (voxels : List (List ℚ)) :
    List (List ℚ) :=
  voxels.map vb.splitRow

/-- The lexsort key of one output row `vbid :: coords`:
`np.lexsort(new_voxels.T[list(range(1, dim+1)) + [0], :])` uses the last
key (the virtual batch id) as most significant, then the coordinates from
last to first, so comparing rows amounts to lexicographically comparing
`vbid :: coords.reverse`. -/
def rowKey (r : List ℚ) : List ℚ := r.headD 0 :: r.tail.reverse

/-- Lexicographic comparison of key vectors (first entry most
significant). -/
def lexLe : List ℚ → List ℚ → Bool
  | [], _ => true
  | _ :: _, [] => false
  | a :: as, b :: bs => if a < b then true else if b < a then false else lexLe as bs

/-- `perm` of `VolumeBoundaries.split`: the indices `0..N-1` stably sorted
by the lexsort keys (`np.lexsort` performs an indirect stable sort). -/
def VolumeBoundaries.splitPerm (vb : VolumeBoundaries) (voxels : List (List ℚ)) : List ℕ :=
  let rows := vb.splitRows voxels
  (List.range rows.length).insertionSort
    (fun i j => lexLe (rowKey (rows.getD i [])) (rowKey (rows.getD j [])) = true)

/-- `VolumeBoundaries.split`: returns `(new_voxels, perm)`. -/
def VolumeBoundaries.split (vb : VolumeBoundaries) (voxels : List (List ℚ)) :
    List (List ℚ) × List ℕ :=
  (vb.splitRows voxels, vb.splitPerm voxels)

/-- Key order asserted by the specification for C2, following its words:
"lexicographic sort with virtual batch id as the *least* significant key
and the last spatial coordinate as *most* significant", i.e. the key vector
`coords.reverse ++ [vbid]`. -/
def specKey (r : List ℚ) : List ℚ := r.tail.reverse ++ [r.headD 0]

/-- Applying the permutation returned by `split` to a row list
(`arr[perm]`). -/
def applyPerm (p : List ℕ) (rows : List (List ℚ)) : List (List ℚ) :=
  p.map (fun i => rows.getD i [])

deriving instance DecidableEq for Except

/-- One value of an event dictionary, as the dispatch in `CollateSparse`
distinguishes them: a 1-D numpy array, a 2-D numpy array, a
`(coordinates, features)` pair of 2-D arrays, or anything else (handled by
the final fallback branch). -/
inductive Val where
  | arr1 : List ℚ → Val
  | arr2 : List (List ℚ) → Val
  | pair : List (List ℚ) → List (List ℚ) → Val
  | blob : ℕ → Val
deriving DecidableEq, Repr

/-- One event dictionary (a Python dict: association list). -/
abbrev Sample := List (String × Val)

/-- The error taxonomy of the specification, naming the exceptions the
source raises: `configError` for the constructor assertions,
`emptyBatch` for the `IndexError` on `batch[0]` with a zero-length batch,
`schemaError` for the numpy `ValueError`s raised when events disagree on a
key's shape kind, `keyMissing` for a `KeyError` on a later event. -/
inductive CollateError where
  | configError : CollateError
  | emptyBatch : CollateError
  | schemaError : CollateError
  | keyMissing : CollateError
deriving DecidableEq, Repr

/-- One value of the result dictionary: a batched 2-D array, or the raw
list of per-event values produced by the fallback branch. -/
inductive Out where
  | mat : List (List ℚ) → Out
  | raw : List Val → Out
deriving DecidableEq, Repr

/-- `sample[key]`. -/
def lookupVal (s : Sample) (k : String) : Except CollateError Val :=
  match s.find? (fun p => p.1 = k) with
  | some p => .ok p.2
  | none => .error .keyMissing

/-- The `particles_label` branch: per event, numpy-concatenate a constant
batch-index column, the coordinate block and the feature block along
axis 1 (a `ValueError` if the two blocks disagree on the row count, or if
the value is not a pair at all), then concatenate events along axis 0. -/
def plabelRows (batch : List Sample) (k : String) : Except CollateError (List (List ℚ)) :=
  (batch.enum.mapM (fun (p : ℕ × Sample) => do
    match ← lookupVal p.2 k with
    | .pair c f =>
      if c.length = f.length then
        .ok ((c.zip f).map (fun (q : List ℚ × List ℚ) => ((p.1 : ℚ)) :: (q.1 ++ q.2)))
      else .error .schemaError
    | _ => .error .schemaError)).map List.flatten

/-- The optional volume splitting applied to the batched
`particles_label` array: `coords[:, :dim+1], perm = vb.split(...)`
followed by `coords = coords[perm]`. -/
def splitCols (vb : Option VolumeBoundaries) (dim : ℕ) (rows : List (List ℚ)) :
    List (List ℚ) :=
  match vb with
  | none => rows
  | some v =>
    let sub := rows.map (List.take (dim + 1))
    let rows2 := List.zipWith (fun a b => a ++ b) (v.splitRows sub) (rows.map (List.drop (dim + 1)))
    applyPerm (v.splitPerm sub) rows2

/-- The generic `(coordinate tensor, feature tensor)` branch: build the
`(batch_id, coords)` voxel block and the feature block, optionally split
and permute both, then numpy-concatenate them along axis 1 (a `ValueError`
when the row counts disagree). -/
def pairRows (batch : List Sample) (k : String) (vb : Option VolumeBoundaries) :
    Except CollateError Out := do
  let cs ← batch.enum.mapM (fun (p : ℕ × Sample) => do
    match ← lookupVal p.2 k with
    | .pair c f => .ok (p.1, c, f)
    | _ => .error .schemaError)
  let voxels := cs.flatMap (fun t => t.2.1.map (fun row => ((t.1 : ℚ)) :: row))
  let data := cs.flatMap (fun t => t.2.2)
  match vb with
  | none =>
    if voxels.length = data.length then .ok (.mat (List.zipWith (· ++ ·) voxels data))
    else .error .schemaError
  | some v =>
    let voxels2 := applyPerm (v.splitPerm voxels) (v.splitRows voxels)
    let data2 := applyPerm (v.splitPerm voxels) data
    if voxels2.length = data2.length then .ok (.mat (List.zipWith (· ++ ·) voxels2 data2))
    else .error .schemaError

/-- The 1-D array branch: prepend the event index as a column to
`np.expand_dims(value, 1)` and stack the events. A later event whose value
is not 1-D makes the axis-1 concatenation fail (`ValueError`). -/
def arr1Rows (batch : List Sample) (k : String) : Except CollateError Out :=
  (batch.enum.mapM (fun (p : ℕ × Sample) => do
    match ← lookupVal p.2 k with
    | .arr1 xs => .ok (xs.map (fun x => [((p.1 : ℚ)), x]))
    | _ => .error .schemaError)).map (fun ls => Out.mat (List.flatten ls))

/-- The 2-D array branch: prepend the event index column and concatenate
the events along axis 0; a later event whose value is not 2-D makes the
axis-1 concatenation fail, and events whose widths disagree make the
axis-0 concatenation fail (`ValueError`). -/
def arr2Rows (batch : List Sample) (k : String) : Except CollateError Out := do
  let bs ← batch.enum.mapM (fun (p : ℕ × Sample) => do
    match ← lookupVal p.2 k with
    | .arr2 xss => .ok (xss.map (fun row => ((p.1 : ℚ)) :: row))
    | _ => .error .schemaError)
  let widths := (bs.flatten.map List.length).eraseDups
  if widths.length ≤ 1 then .ok (.mat bs.flatten) else .error .schemaError

/-- Processing of a single key of the result dictionary: the
`particles_label` special case first, then dispatch on the shape kind of
the FIRST event's value, exactly as the `if`/`elif` chain of the source. -/
def processKey (batch : List Sample) (k : String) (vb : Option VolumeBoundaries) :
    Except CollateError Out := do
  if k = "particles_label" then
    let rows ← plabelRows batch k
    let dim :=
      match batch.headD [] |> (fun s => lookupVal s k) with
      | .ok (.pair c _) => (c.headD []).length
      | _ => 0
    .ok (.mat (splitCols vb dim rows))
  else
    match ← lookupVal (batch.headD []) k with
    | .pair _ _ => pairRows batch k vb
    | .arr1 _ => arr1Rows batch k
    | .arr2 _ => arr2Rows batch k
    | .blob _ => do
      let vs ← batch.mapM (fun s => lookupVal s k)
      .ok (.raw vs)

/-- `CollateSparse(batch, **kwargs)`: constructs the `VolumeBoundaries`
helper first when a `boundaries` kwarg is present (so a malformed
configuration raises before anything else), then iterates over
`batch[0].keys()` — the `IndexError` on an empty batch list — and batches
each key. -/
def CollateSparse (batch : List Sample) (boundaries : Option (List BDef)) :
    Except CollateError (List (String × Out)) := do
  let vb ← match boundaries with
    | none => pure none
    | some defs =>
      match VolumeBoundaries.init defs with
      | none => .error .configError
      | some p => pure (some p.1)
  match batch with
  | [] => .error .emptyBatch
  | s0 :: _ =>
    (s0.map Prod.fst).mapM (fun k => do .ok (k, ← processKey batch k vb))

def vbOfDefs (defs : List BDef) : VolumeBoundaries :=
  ((VolumeBoundaries.init defs).map Prod.fst).getD ⟨0, [], [], []⟩

/-- Validity of the optional `boundaries` kwarg: absent, or accepted by the
constructor's sanity checks (otherwise the constructor raises first, before
`batch[0]` is ever read). -/
def validBoundaries (bd : Option (List BDef)) : Prop :=
  ∀ defs, bd = some defs → (VolumeBoundaries.init defs).isSome

/-- The number of bins each configuration entry induces, read off the raw
configuration: `len(cuts) + 1`, and 1 for a dimension without boundaries. -/
def specBinCount : BDef → ℕ
  | .cuts l => l.length + 1
  | _ => 1

/-- C1 evaluation at the failing input: with `boundaries = [[5.0, 10.0]]`
(two cuts along one dimension) the voxel `(batch 0, x = 3)` is matched by
the conjunction masks of TWO sub-volumes (`x < 5` and `x < 10`), so the sum
of the per-volume boolean masks at this row is 2, not 1; consequently the
volume loop of `split` overwrites the voxel's virtual batch id with that of
volume 1 and subtracts both volumes' shifts (0 and 5) from its coordinate,
producing row `[1, -2]` instead of assigning exactly one volume. -/
theorem c1_partition_failing_input :
    (vbOfDefs [BDef.cuts [5, 10]]).num_volumes = 3 ∧
    (vbOfDefs [BDef.cuts [5, 10]]).maskCount [3] = 2 ∧
    (vbOfDefs [BDef.cuts [5, 10]]).splitRow [0, 3] = [1, -2] := by decide

/-- C4: with `boundaries = [[10.0], None]` and two events of three voxels at
x-coordinates `[5, 12, 9]` and `[1, 20, 11]`, `num_volumes() = 2`; `split`
maps voxels with `x < 10` to volume 0 (shift 0) and `x >= 10` to volume 1
(shift 10: 12 becomes 2, 20 becomes 10), and assigns virtual batch ids
`volume + batch * 2`: event 0 gets exactly ids `{0, 1}` and event 1 exactly
`{2, 3}`. -/
theorem c4_two_event_scenario :
    (vbOfDefs [BDef.cuts [10], BDef.pyNone]).num_volumes = 2 ∧
    (vbOfDefs [BDef.cuts [10], BDef.pyNone]).splitRows
      [[0,5,0],[0,12,0],[0,9,0],[1,1,0],[1,20,0],[1,11,0]] =
      [[0,5,0],[1,2,0],[0,9,0],[2,1,0],[3,10,0],[3,1,0]] ∧
    ((vbOfDefs [BDef.cuts [10], BDef.pyNone]).splitRows
      [[0,5,0],[0,12,0],[0,9,0],[1,1,0],[1,20,0],[1,11,0]]).map (fun r => r.headD 0) =
      [0, 1, 0, 2, 3, 3] := by decide

/-- C2 counterexample: for the boundary-free 1-D configuration and input
rows `[[0, 5], [1, 3]]`, `split` returns `perm = [0, 1]` (the rows are
already sorted with the virtual batch id as MOST significant key), but the
rows ordered by `perm` are NOT sorted under the key order the claim states
(last coordinate most significant, ..., virtual batch id least
significant): that order would demand the row with coordinate 3 first. -/
theorem c2_counterexample :
    (vbOfDefs [BDef.pyNone]).splitPerm [[0,5],[1,3]] = [0, 1] ∧
    ¬ List.Pairwise (fun a b => lexLe (specKey a) (specKey b) = true)
      (applyPerm ((vbOfDefs [BDef.pyNone]).splitPerm [[0,5],[1,3]])
        ((vbOfDefs [BDef.pyNone]).splitRows [[0,5],[1,3]])) := by decide

/-- C8: collating two events where one carries key `x` as a 1-D array and
the other as a 2-D array raises the shape-mismatch error (the spec's
`SchemaError`, a numpy `ValueError` in the source: the axis-1 concatenation
of the batch-index column with `np.expand_dims` of a 2-D array fails). -/
theorem c8_shape_kind_mismatch :
    CollateSparse [[("x", Val.arr1 [1, 2])], [("x", Val.arr2 [[1], [2]])]] none =
      Except.error CollateError.schemaError := by decide

/-- C9 counterexample: constructing the helper from
`boundaries = [[10.0, 5.0]]` leaves the caller's configuration list holding
`[[5.0, 10.0]]` — the constructor aliases the list and sorts the inner cut
list in place — so the configuration is NOT left unchanged. -/
theorem c9_counterexample :
    (VolumeBoundaries.init [BDef.cuts [10, 5]]).map Prod.snd =
      some [BDef.cuts [5, 10]] ∧
    [BDef.cuts [5, 10]] ≠ [BDef.cuts [10, 5]] := by decide

theorem map_fix_iff {α : Type} (f : α → α) (l : List α) :
    l.map f = l ↔ ∀ e ∈ l, f e = e := by
  induction l with
  | nil => simp
  | cons a t ih =>
    simp only [List.map_cons, List.cons.injEq, List.mem_cons]
    constructor
    · rintro ⟨h1, h2⟩ e he
      rcases he with rfl | he
      · exact h1
      · exact (ih.mp h2) e he
    · intro h
      exact ⟨h a (Or.inl rfl), ih.mpr (fun e he => h e (Or.inr he))⟩

/-- C7: the sparse collate function called on an empty batch list raises the
empty-batch error (the `IndexError` at `batch[0].keys()`, named
`EmptyBatchError` by the specification's taxonomy), for any well-formed
boundaries configuration and also when no boundaries are configured. -/
theorem c7_empty_batch_error (bd : Option (List BDef)) (h : validBoundaries bd) :
    CollateSparse [] bd = Except.error CollateError.emptyBatch := by
  cases bd with
  | none => rfl
  | some defs =>
    have hs := h defs rfl
    cases hi : VolumeBoundaries.init defs with
    | none => rw [hi] at hs; simp at hs
    | some p => simp [CollateSparse, hi]

theorem c7_empty_batch_error_witness :
    validBoundaries none ∧ CollateSparse [] none = Except.error CollateError.emptyBatch :=
  ⟨nofun, c7_empty_batch_error none nofun⟩

/-- C9 (amended): the collation layer never mutates the input batch, but the
`VolumeBoundaries` constructor mutates the caller's boundaries configuration
in place: after construction the list holds the normal form in which every
`'None'` string is replaced by `None` and every cut list is sorted
ascending, and the configuration is left observably unchanged precisely when
it was already in that normal form. -/
theorem c9_boundaries_normalization (defs : List BDef) (vb : VolumeBoundaries)
    (post : List BDef) (h : VolumeBoundaries.init defs = some (vb, post)) :
    post = defs.map postEntry ∧ (post = defs ↔ ∀ e ∈ defs, postEntry e = e) := by
  have hp : post = defs.map postEntry := by
    unfold VolumeBoundaries.init at h
    by_cases he : defs.isEmpty
    · simp [he] at h
    · simp only [he, if_false] at h
      cases ht : traverseNorm defs with
      | none => rw [ht] at h; cases h
      | some bs =>
        rw [ht] at h
        injection h with h1
        exact (congrArg Prod.snd h1).symm
  exact ⟨hp, by rw [hp]; exact map_fix_iff postEntry defs⟩

theorem c9_boundaries_normalization_witness :
    VolumeBoundaries.init [BDef.cuts [5, 10]] =
      some (vbOfDefs [BDef.cuts [5, 10]], [BDef.cuts [5, 10]]) ∧
    ([BDef.cuts [5, 10]] = [BDef.cuts [5, 10]].map postEntry ∧
      ([BDef.cuts [5, 10]] = [BDef.cuts [5, 10]] ↔
        ∀ e ∈ [BDef.cuts [5, 10]], postEntry e = e)) :=
  ⟨by decide, c9_boundaries_normalization [BDef.cuts [5, 10]] (vbOfDefs [BDef.cuts [5, 10]])
    [BDef.cuts [5, 10]] (by decide)⟩

theorem zipWith_sub_then_add (x s : List ℚ) (h : x.length = s.length) :
    List.zipWith (fun a b => a + b) (List.zipWith (fun a b => a - b) x s) s = x := by
  induction x generalizing s with
  | nil => rfl
  | cons a t ih =>
    cases s with
    | nil => simp at h
    | cons b u =>
      simp only [List.zipWith_cons_cons]
      have ha : a - b + b = a := by ring
      rw [ha, ih u (by simpa using h)]

theorem zipWith_add_then_sub (x s : List ℚ) (h : x.length = s.length) :
    List.zipWith (fun a b => a - b) (List.zipWith (fun a b => a + b) x s) s = x := by
  induction x generalizing s with
  | nil => rfl
  | cons a t ih =>
    cases s with
    | nil => simp at h
    | cons b u =>
      simp only [List.zipWith_cons_cons]
      have ha : a + b - b = a := by ring
      rw [ha, ih u (by simpa using h)]

theorem intShiftVec_length (vb : VolumeBoundaries) (volume : ℕ) :
    (vb.intShiftVec volume).length = vb.dim := by
  simp [VolumeBoundaries.intShiftVec]

/-- C3: for every volume index within range and every coordinate vector of
the configured dimension, `translate` and `untranslate` are mutual
inverses: `translate(untranslate(x, v), v) = x` and
`untranslate(translate(x, v), v) = x`. -/
theorem c3_translate_untranslate_roundtrip (defs : List BDef) (vb : VolumeBoundaries)
    (post : List BDef) (h : VolumeBoundaries.init defs = some (vb, post))
    (volume : ℕ) (hv : volume < vb.num_volumes) (x : List ℚ) (hx : x.length = vb.dim) :
    vb.translate (vb.untranslate x volume) volume = x ∧
    vb.untranslate (vb.translate x volume) volume = x := by
  have hl : x.length = (vb.intShiftVec volume).length := by
    rw [intShiftVec_length]; exact hx
  exact ⟨zipWith_sub_then_add x (vb.intShiftVec volume) hl,
         zipWith_add_then_sub x (vb.intShiftVec volume) hl⟩

theorem c3_translate_untranslate_roundtrip_witness :
    VolumeBoundaries.init [BDef.cuts [10], BDef.pyNone] =
      some (vbOfDefs [BDef.cuts [10], BDef.pyNone], [BDef.cuts [10], BDef.pyNone]) ∧
    1 < (vbOfDefs [BDef.cuts [10], BDef.pyNone]).num_volumes ∧
    ([(3 : ℚ), 4].length = (vbOfDefs [BDef.cuts [10], BDef.pyNone]).dim) ∧
    ((vbOfDefs [BDef.cuts [10], BDef.pyNone]).translate
        ((vbOfDefs [BDef.cuts [10], BDef.pyNone]).untranslate [3, 4] 1) 1 = [3, 4] ∧
      (vbOfDefs [BDef.cuts [10], BDef.pyNone]).untranslate
        ((vbOfDefs [BDef.cuts [10], BDef.pyNone]).translate [3, 4] 1) 1 = [3, 4]) :=
  ⟨by decide, by decide, by decide,
    c3_translate_untranslate_roundtrip [BDef.cuts [10], BDef.pyNone]
      (vbOfDefs [BDef.cuts [10], BDef.pyNone]) [BDef.cuts [10], BDef.pyNone] (by decide)
      1 (by decide) [3, 4] (by decide)⟩

theorem pyInt_cast_of_den_one (q : ℚ) (h : q.den = 1) : ((pyInt q : ℤ) : ℚ) = q := by
  unfold pyInt
  rw [h, Nat.cast_one, Int.tdiv_one]
  exact (Rat.den_eq_one_iff q).mp h

theorem pyInt_cast_ne_of_den_ne_one (q : ℚ) (h : q.den ≠ 1) : ((pyInt q : ℤ) : ℚ) ≠ q := by
  intro he
  exact h (by rw [← he]; exact Rat.den_intCast _)

theorem comboIntShifts_length (vb : VolumeBoundaries) (cv : List ℕ) :
    (vb.comboIntShifts cv).length = vb.dim := by
  simp [VolumeBoundaries.comboIntShifts]

theorem comboIntShifts_getD (vb : VolumeBoundaries) (cv : List ℕ) (n : ℕ)
    (hn : n < vb.dim) :
    (vb.comboIntShifts cv).getD n 0 = ((pyInt (vb.binShift n (cv.getD n 0)) : ℤ) : ℚ) := by
  have hl : n < (vb.comboIntShifts cv).length := by
    rw [comboIntShifts_length]
    exact hn
  rw [List.getD_eq_getElem _ _ hl]
  simp [VolumeBoundaries.comboIntShifts, List.getElem_map, List.getElem_range]

theorem foldl_shift_getD (vb : VolumeBoundaries) (n : ℕ) (hn : n < vb.dim) :
    ∀ (ms : List (ℕ × List ℕ)) (c : List ℚ), c.length = vb.dim →
      (List.foldl (fun acc p => List.zipWith (fun a s => a - s) acc
        (vb.comboIntShifts p.2)) c ms).getD n 0 =
      c.getD n 0 -
        (ms.map (fun p => ((pyInt (vb.binShift n (p.2.getD n 0)) : ℤ) : ℚ))).sum
  | [], c, hc => by simp
  | p :: rest, c, hc => by
    rw [List.foldl_cons, List.map_cons, List.sum_cons]
    have hlen : (List.zipWith (fun a s => a - s) c (vb.comboIntShifts p.2)).length =
        vb.dim := by
      rw [List.length_zipWith, hc, comboIntShifts_length]
      exact min_self _
    rw [foldl_shift_getD vb n hn rest _ hlen]
    have hnc : n < c.length := by rw [hc]; exact hn
    have hz : n < (List.zipWith (fun a s => a - s) c (vb.comboIntShifts p.2)).length := by
      rw [hlen]
      exact hn
    rw [List.getD_eq_getElem _ _ hz, List.getElem_zipWith, ← List.getD_eq_getElem c 0 hnc,
      ← List.getD_eq_getElem (vb.comboIntShifts p.2) 0
        (by rw [comboIntShifts_length]; exact hn),
      comboIntShifts_getD vb p.2 n hn]
    ring

theorem splitRow_getD_succ (vb : VolumeBoundaries) (r : List ℚ) (n : ℕ) :
    (vb.splitRow r).getD (n + 1) 0 =
      (List.foldl (fun acc p => List.zipWith (fun a s => a - s) acc
        (vb.comboIntShifts p.2)) r.tail (vb.matchingCombos r.tail)).getD n 0 := by
  simp only [VolumeBoundaries.splitRow]
  rw [List.getD_cons_succ]

/-- C10: `translate`, `untranslate` and `split` all apply the integer
truncation `int(shift)` of each stored shift value rather than the shift
itself: `translate`/`untranslate` change coordinate `n` by exactly the
truncated integer `pyInt(shifts[n][combo[v][n]])`; the volume loop of
`split` subtracts from coordinate `n`, for each matching volume, exactly the
truncated integer `pyInt(shifts[n][c[n]])` of that volume's stored shift
(the output coordinate is the input minus the sum of those integers); and
for every bin the truncated value equals the stored cut exactly when the cut
is an integer, and differs from it whenever the cut is a non-integer float
(e.g. 1376.3). -/
theorem c10_truncated_shifts (defs : List BDef) (vb : VolumeBoundaries)
    (post : List BDef) (h : VolumeBoundaries.init defs = some (vb, post))
    (volume n : ℕ) (x : List ℚ) (hv : volume < vb.num_volumes)
    (hn : n < vb.dim) (hx : x.length = vb.dim) :
    (vb.translate x volume).getD n 0 =
      x.getD n 0 + ((pyInt (vb.shiftOf volume n) : ℤ) : ℚ) ∧
    (vb.untranslate x volume).getD n 0 =
      x.getD n 0 - ((pyInt (vb.shiftOf volume n) : ℤ) : ℚ) ∧
    (∀ r : List ℚ, r.tail.length = vb.dim →
      (vb.splitRow r).getD (n + 1) 0 =
        r.tail.getD n 0 -
          ((vb.matchingCombos r.tail).map
            (fun p => ((pyInt (vb.binShift n (p.2.getD n 0)) : ℤ) : ℚ))).sum) ∧
    (∀ i : ℕ,
      ((vb.binShift n i).den = 1 →
        ((pyInt (vb.binShift n i) : ℤ) : ℚ) = vb.binShift n i) ∧
      ((vb.binShift n i).den ≠ 1 →
        ((pyInt (vb.binShift n i) : ℤ) : ℚ) ≠ vb.binShift n i)) := by
  refine ⟨?_, ?_, ?_, fun i => ⟨pyInt_cast_of_den_one _, pyInt_cast_ne_of_den_ne_one _⟩⟩
  · have hnx : n < x.length := by rw [hx]; exact hn
    have hns : n < (vb.intShiftVec volume).length := by rw [intShiftVec_length]; exact hn
    have hz : n < (List.zipWith (fun a s => a + s) x (vb.intShiftVec volume)).length := by
      rw [List.length_zipWith]
      exact lt_min hnx hns
    rw [VolumeBoundaries.translate, List.getD_eq_getElem _ _ hz, List.getElem_zipWith,
      List.getD_eq_getElem _ _ hnx]
    congr 1
    simp [VolumeBoundaries.intShiftVec, List.getElem_map, List.getElem_range]
  · have hnx : n < x.length := by rw [hx]; exact hn
    have hns : n < (vb.intShiftVec volume).length := by rw [intShiftVec_length]; exact hn
    have hz : n < (List.zipWith (fun a s => a - s) x (vb.intShiftVec volume)).length := by
      rw [List.length_zipWith]
      exact lt_min hnx hns
    rw [VolumeBoundaries.untranslate, List.getD_eq_getElem _ _ hz, List.getElem_zipWith,
      List.getD_eq_getElem _ _ hnx]
    congr 1
    simp [VolumeBoundaries.intShiftVec, List.getElem_map, List.getElem_range]
  · intro r hr
    rw [splitRow_getD_succ]
    exact foldl_shift_getD vb n hn (vb.matchingCombos r.tail) r.tail hr

theorem c10_truncated_shifts_witness :
    VolumeBoundaries.init [BDef.cuts [13763 / 10]] =
      some (vbOfDefs [BDef.cuts [13763 / 10]], [BDef.cuts [13763 / 10]]) ∧
    1 < (vbOfDefs [BDef.cuts [13763 / 10]]).num_volumes ∧
    0 < (vbOfDefs [BDef.cuts [13763 / 10]]).dim ∧
    ([(0 : ℚ)].length = (vbOfDefs [BDef.cuts [13763 / 10]]).dim) ∧
    (((vbOfDefs [BDef.cuts [13763 / 10]]).translate [0] 1).getD 0 0 =
        ([(0 : ℚ)].getD 0 0) +
          ((pyInt ((vbOfDefs [BDef.cuts [13763 / 10]]).shiftOf 1 0) : ℤ) : ℚ) ∧
      ((vbOfDefs [BDef.cuts [13763 / 10]]).untranslate [0] 1).getD 0 0 =
        ([(0 : ℚ)].getD 0 0) -
          ((pyInt ((vbOfDefs [BDef.cuts [13763 / 10]]).shiftOf 1 0) : ℤ) : ℚ) ∧
      (∀ r : List ℚ, r.tail.length = (vbOfDefs [BDef.cuts [13763 / 10]]).dim →
        ((vbOfDefs [BDef.cuts [13763 / 10]]).splitRow r).getD (0 + 1) 0 =
          r.tail.getD 0 0 -
            (((vbOfDefs [BDef.cuts [13763 / 10]]).matchingCombos r.tail).map
              (fun p => ((pyInt ((vbOfDefs [BDef.cuts [13763 / 10]]).binShift 0
                (p.2.getD 0 0)) : ℤ) : ℚ))).sum) ∧
      (∀ i : ℕ,
        (((vbOfDefs [BDef.cuts [13763 / 10]]).binShift 0 i).den = 1 →
          ((pyInt ((vbOfDefs [BDef.cuts [13763 / 10]]).binShift 0 i) : ℤ) : ℚ) =
            (vbOfDefs [BDef.cuts [13763 / 10]]).binShift 0 i) ∧
        (((vbOfDefs [BDef.cuts [13763 / 10]]).binShift 0 i).den ≠ 1 →
          ((pyInt ((vbOfDefs [BDef.cuts [13763 / 10]]).binShift 0 i) : ℤ) : ℚ) ≠
            (vbOfDefs [BDef.cuts [13763 / 10]]).binShift 0 i))) :=
  ⟨by decide, by decide, by decide, by decide,
    c10_truncated_shifts [BDef.cuts [13763 / 10]] (vbOfDefs [BDef.cuts [13763 / 10]])
      [BDef.cuts [13763 / 10]] (by decide) 1 0 [0]
      (by decide) (by decide) (by decide)⟩

theorem lexLe_total : ∀ a b : List ℚ, lexLe a b = true ∨ lexLe b a = true
  | [], _ => Or.inl rfl
  | _ :: _, [] => Or.inr rfl
  | x :: xs, y :: ys => by
    simp only [lexLe]
    rcases lt_trichotomy x y with h | h | h
    · left; rw [if_pos h]
    · subst h
      simp only [lt_self_iff_false, if_false]
      exact lexLe_total xs ys
    · right; rw [if_pos h]

theorem lexLe_trans : ∀ a b c : List ℚ,
    lexLe a b = true → lexLe b c = true → lexLe a c = true
  | [], _, _, _, _ => rfl
  | _ :: _, [], _, hab, _ => by simp [lexLe] at hab
  | _ :: _, _ :: _, [], _, hbc => by simp [lexLe] at hbc
  | x :: xs, y :: ys, z :: zs, hab, hbc => by
    simp only [lexLe] at hab hbc ⊢
    rcases lt_trichotomy x y with h1 | h1 | h1
    · rcases lt_trichotomy y z with h2 | h2 | h2
      · rw [if_pos (lt_trans h1 h2)]
      · rw [if_pos (h2 ▸ h1)]
      · rw [if_neg (lt_asymm h2), if_pos h2] at hbc
        exact absurd hbc (by simp)
    · subst h1
      simp only [lt_self_iff_false, if_false] at hab
      rcases lt_trichotomy x z with h2 | h2 | h2
      · rw [if_pos h2]
      · subst h2
        simp only [lt_self_iff_false, if_false] at hbc ⊢
        exact lexLe_trans xs ys zs hab hbc
      · rw [if_neg (lt_asymm h2), if_pos h2] at hbc
        exact absurd hbc (by simp)
    · rw [if_neg (lt_asymm h1), if_pos h1] at hab
      exact absurd hab (by simp)

theorem splitRows_length (vb : VolumeBoundaries) (voxels : List (List ℚ)) :
    (vb.splitRows voxels).length = voxels.length := by
  simp [VolumeBoundaries.splitRows]

/-- C2 (amended): the permutation returned by `split` sorts the output rows
lexicographically with the virtual batch id as the MOST significant key and
the spatial coordinates ordered from the last (next most significant) down
to the first (least significant) — `np.lexsort` uses its LAST key row,
`new_voxels.T[0]` (the virtual batch id), as the primary key, matching the
class docstring "we sort by: batch id, z, y, x in this order". The claim's
key order is reversed. `perm` is a permutation of the row indices, and the
rows reordered by `perm` are sorted under this key. -/
theorem c2_sort_order (defs : List BDef) (vb : VolumeBoundaries) (post : List BDef)
    (h : VolumeBoundaries.init defs = some (vb, post)) (voxels : List (List ℚ))
    (hshape : ∀ r ∈ voxels, r.length = vb.dim + 1) :
    (vb.splitPerm voxels).Perm (List.range voxels.length) ∧
    List.Pairwise (fun a b => lexLe (rowKey a) (rowKey b) = true)
      (applyPerm (vb.splitPerm voxels) (vb.splitRows voxels)) := by
  haveI hto : IsTotal ℕ (fun i j : ℕ =>
      lexLe (rowKey ((vb.splitRows voxels).getD i []))
        (rowKey ((vb.splitRows voxels).getD j [])) = true) :=
    ⟨fun a b => lexLe_total _ _⟩
  haveI htr : IsTrans ℕ (fun i j : ℕ =>
      lexLe (rowKey ((vb.splitRows voxels).getD i []))
        (rowKey ((vb.splitRows voxels).getD j [])) = true) :=
    ⟨fun a b c hab hbc => lexLe_trans _ _ _ hab hbc⟩
  constructor
  · have hp := List.perm_insertionSort
      (fun i j : ℕ =>
        lexLe (rowKey ((vb.splitRows voxels).getD i []))
          (rowKey ((vb.splitRows voxels).getD j [])) = true)
      (List.range (vb.splitRows voxels).length)
    have h2 : (List.range (vb.splitRows voxels).length).Perm (List.range voxels.length) := by
      rw [splitRows_length]
    exact hp.trans h2
  · have hs := List.sorted_insertionSort
      (fun i j : ℕ =>
        lexLe (rowKey ((vb.splitRows voxels).getD i []))
          (rowKey ((vb.splitRows voxels).getD j [])) = true)
      (List.range (vb.splitRows voxels).length)
    exact List.Pairwise.map _ (fun a b hab => hab) hs

theorem c2_sort_order_witness :
    VolumeBoundaries.init [BDef.cuts [10], BDef.pyNone] =
      some (vbOfDefs [BDef.cuts [10], BDef.pyNone], [BDef.cuts [10], BDef.pyNone]) ∧
    (∀ r ∈ [[(0:ℚ),5,0],[0,12,0],[1,1,0]],
      r.length = (vbOfDefs [BDef.cuts [10], BDef.pyNone]).dim + 1) ∧
    (((vbOfDefs [BDef.cuts [10], BDef.pyNone]).splitPerm
        [[(0:ℚ),5,0],[0,12,0],[1,1,0]]).Perm (List.range 3) ∧
      List.Pairwise (fun a b => lexLe (rowKey a) (rowKey b) = true)
        (applyPerm ((vbOfDefs [BDef.cuts [10], BDef.pyNone]).splitPerm
            [[(0:ℚ),5,0],[0,12,0],[1,1,0]])
          ((vbOfDefs [BDef.cuts [10], BDef.pyNone]).splitRows
            [[(0:ℚ),5,0],[0,12,0],[1,1,0]]))) :=
  ⟨by decide, by decide,
    c2_sort_order [BDef.cuts [10], BDef.pyNone] (vbOfDefs [BDef.cuts [10], BDef.pyNone])
      [BDef.cuts [10], BDef.pyNone] (by decide) [[(0:ℚ),5,0],[0,12,0],[1,1,0]] (by decide)⟩

theorem init_inv (defs : List BDef) (vb : VolumeBoundaries) (post : List BDef)
    (h : VolumeBoundaries.init defs = some (vb, post)) :
    ∃ bs, traverseNorm defs = some bs ∧
      vb = ⟨defs.length, bs, comboList (bs.map binCount), bs.map dimShifts⟩ ∧
      post = defs.map postEntry ∧ defs ≠ [] := by
  unfold VolumeBoundaries.init at h
  by_cases he : defs.isEmpty
  · simp [he] at h
  · simp only [he, if_false] at h
    cases ht : traverseNorm defs with
    | none => rw [ht] at h; cases h
    | some bs =>
      rw [ht] at h
      injection h with h1
      refine ⟨bs, rfl, (congrArg Prod.fst h1).symm, (congrArg Prod.snd h1).symm, ?_⟩
      intro hn
      rw [hn] at he
      exact he rfl

theorem prodEnum_length : ∀ L : List ℕ, (prodEnum L).length = L.prod
  | [] => rfl
  | s :: rest => by
    simp only [prodEnum, List.length_flatMap, List.prod_cons]
    have h1 : List.map (List.length ∘ fun i => (prodEnum rest).map (fun t => i :: t))
        (List.range s) = List.map (fun _ => rest.prod) (List.range s) := by
      apply List.map_congr_left
      intro i _
      simp only [Function.comp]
      rw [List.length_map, prodEnum_length rest]
    rw [h1, List.map_const', List.sum_replicate, List.length_range, smul_eq_mul]

theorem axesOrder_perm (d : ℕ) : (axesOrder d).Perm (List.range d) := by
  unfold axesOrder
  split_ifs with hd
  · exact List.Perm.refl _
  · have h2 : 2 ⊓ d = 2 := by omega
    have ht : (List.range d).take 2 = [0, 1] := by
      rw [List.take_range, h2]
      rfl
    have step1 : (((List.range d).drop 2).reverse ++ [0, 1]).Perm
        ((List.range d).drop 2 ++ [0, 1]) :=
      (List.reverse_perm _).append_right _
    have step2 : ((List.range d).drop 2 ++ [0, 1]).Perm ([0, 1] ++ (List.range d).drop 2) :=
      List.perm_append_comm
    have step3 : [0, 1] ++ (List.range d).drop 2 = List.range d := by
      rw [← ht, List.take_append_drop]
    exact (step1.trans step2).trans (step3 ▸ List.Perm.refl _)

theorem map_getD_self : ∀ l : List ℕ, (List.range l.length).map (fun n => l.getD n 0) = l
  | [] => rfl
  | a :: t => by
    rw [List.length_cons, List.range_succ_eq_map, List.map_cons, List.map_map]
    have h1 : ((fun n => (a :: t).getD n 0) ∘ Nat.succ) = (fun n => t.getD n 0) := by
      funext n
      exact List.getD_cons_succ
    rw [List.getD_cons_zero, h1, map_getD_self t]

theorem comboList_length (sizes : List ℕ) : (comboList sizes).length = sizes.prod := by
  unfold comboList
  rw [List.length_map, prodEnum_length]
  have hp : ((axesOrder sizes.length).map (fun n => sizes.getD n 0)).Perm
      ((List.range sizes.length).map (fun n => sizes.getD n 0)) :=
    (axesOrder_perm sizes.length).map _
  rw [hp.prod_eq, map_getD_self]

theorem traverseNorm_binCount : ∀ (defs : List BDef) (bs : List (Option (List ℚ))),
    traverseNorm defs = some bs → bs.map binCount = defs.map specBinCount
  | [], bs, h => by
    simp only [traverseNorm, Option.some.injEq] at h
    rw [← h]
    rfl
  | e :: rest, bs, h => by
    unfold traverseNorm at h
    cases hne : normEntry e with
    | none => rw [hne] at h; cases h
    | some b =>
      rw [hne] at h
      cases htr : traverseNorm rest with
      | none => rw [htr] at h; cases h
      | some bs2 =>
        rw [htr] at h
        injection h with h1
        rw [← h1, List.map_cons, List.map_cons, traverseNorm_binCount rest bs2 htr]
        congr 1
        cases e with
        | noneStr => injection hne with h2; rw [← h2]; rfl
        | pyNone => injection hne with h2; rw [← h2]; rfl
        | cuts l =>
          simp only [normEntry] at hne
          by_cases hl : l.isEmpty
          · rw [if_pos hl] at hne; cases hne
          · rw [if_neg hl] at hne
            injection hne with h2
            rw [← h2]
            show (pySort l).length + 1 = l.length + 1
            rw [pySort, List.length_insertionSort]

theorem range_map_add : ∀ V s : ℕ, (List.range V).map (fun i => i + s) = List.range' s V
  | 0, _ => rfl
  | V + 1, s => by
    rw [List.range_succ_eq_map, List.map_cons, List.map_map]
    have h1 : ((fun i => i + s) ∘ Nat.succ) = (fun i => i + (s + 1)) := by
      funext n
      simp [Nat.succ_eq_add_one]
      omega
    rw [h1, range_map_add V (s + 1), List.range'_succ]
    simp

theorem interval_disjoint (V a b i : ℕ) (hab : a ≠ b) (h1 : a * V ≤ i)
    (h2 : i < a * V + V) (h3 : b * V ≤ i) (h4 : i < b * V + V) : False := by
  rcases Nat.lt_or_ge a b with hlt | hge
  · have hm : a * V + V ≤ b * V := by
      have h5 := Nat.mul_le_mul_right V (Nat.succ_le_of_lt hlt)
      rwa [Nat.succ_mul] at h5
    exact absurd (lt_of_lt_of_le h2 (le_trans hm h3)) (lt_irrefl i)
  · have hlt2 : b < a := lt_of_le_of_ne hge (Ne.symm hab)
    have hm : b * V + V ≤ a * V := by
      have h5 := Nat.mul_le_mul_right V (Nat.succ_le_of_lt hlt2)
      rwa [Nat.succ_mul] at h5
    exact absurd (lt_of_lt_of_le h4 (le_trans hm h1)) (lt_irrefl i)

/-- C5: for every accepted boundary specification, `num_volumes()` equals
the product over the dimensions of `(number of cuts) + 1` (so 1 when no
dimension has boundaries), and `virtual_batch_ids(e)` is exactly the block
of `num_volumes()` contiguous integers starting at `e * num_volumes()`,
disjoint across distinct entries. -/
theorem c5_num_volumes_and_virtual_batch_ids (defs : List BDef) (vb : VolumeBoundaries)
    (post : List BDef) (h : VolumeBoundaries.init defs = some (vb, post)) :
    vb.num_volumes = (defs.map specBinCount).prod ∧
    ((∀ e ∈ defs, e = BDef.pyNone ∨ e = BDef.noneStr) → vb.num_volumes = 1) ∧
    (∀ e : ℕ, vb.virtual_batch_ids e =
      List.range' (e * vb.num_volumes) vb.num_volumes) ∧
    (∀ e e' : ℕ, e ≠ e' →
      ∀ i ∈ vb.virtual_batch_ids e, i ∉ vb.virtual_batch_ids e') := by
  obtain ⟨bs, ht, hvb, hpost, hne⟩ := init_inv defs vb post h
  have hnum : vb.num_volumes = (defs.map specBinCount).prod := by
    rw [hvb]
    show (comboList (bs.map binCount)).length = _
    rw [comboList_length, traverseNorm_binCount defs bs ht]
  have hrange : ∀ e : ℕ, vb.virtual_batch_ids e =
      List.range' (e * vb.num_volumes) vb.num_volumes := by
    intro e
    show (List.range vb.combo.length).map (fun i => i + e * vb.num_volumes) = _
    exact range_map_add vb.combo.length (e * vb.num_volumes)
  refine ⟨hnum, ?_, hrange, ?_⟩
  · intro hall
    rw [hnum]
    apply List.prod_eq_one
    intro x hx
    rw [List.mem_map] at hx
    obtain ⟨e, he, hxe⟩ := hx
    rcases hall e he with rfl | rfl <;> exact hxe.symm
  · intro e e' hnee i hi hi'
    rw [hrange e, List.mem_range'_1] at hi
    rw [hrange e', List.mem_range'_1] at hi'
    exact interval_disjoint vb.num_volumes e e' i hnee hi.1 hi.2 hi'.1 hi'.2

theorem c5_num_volumes_and_virtual_batch_ids_witness :
    VolumeBoundaries.init [BDef.cuts [5, 10], BDef.pyNone] =
      some (vbOfDefs [BDef.cuts [5, 10], BDef.pyNone], [BDef.cuts [5, 10], BDef.pyNone]) ∧
    ((vbOfDefs [BDef.cuts [5, 10], BDef.pyNone]).num_volumes =
        ([BDef.cuts [5, 10], BDef.pyNone].map specBinCount).prod ∧
      ((∀ e ∈ [BDef.cuts [5, 10], BDef.pyNone], e = BDef.pyNone ∨ e = BDef.noneStr) →
        (vbOfDefs [BDef.cuts [5, 10], BDef.pyNone]).num_volumes = 1) ∧
      (∀ e : ℕ, (vbOfDefs [BDef.cuts [5, 10], BDef.pyNone]).virtual_batch_ids e =
        List.range' (e * (vbOfDefs [BDef.cuts [5, 10], BDef.pyNone]).num_volumes)
          (vbOfDefs [BDef.cuts [5, 10], BDef.pyNone]).num_volumes) ∧
      (∀ e e' : ℕ, e ≠ e' →
        ∀ i ∈ (vbOfDefs [BDef.cuts [5, 10], BDef.pyNone]).virtual_batch_ids e,
          i ∉ (vbOfDefs [BDef.cuts [5, 10], BDef.pyNone]).virtual_batch_ids e')) :=
  ⟨by decide,
    c5_num_volumes_and_virtual_batch_ids [BDef.cuts [5, 10], BDef.pyNone]
      (vbOfDefs [BDef.cuts [5, 10], BDef.pyNone]) [BDef.cuts [5, 10], BDef.pyNone]
      (by decide)⟩

theorem getD_replicate {α : Type} (a : α) : ∀ n i : ℕ, (List.replicate n a).getD i a = a
  | 0, _ => rfl
  | n + 1, 0 => rfl
  | n + 1, i + 1 => by
    rw [List.replicate_succ, List.getD_cons_succ]
    exact getD_replicate a n i

theorem getD_replicate_of_lt {α : Type} (a d : α) :
    ∀ n i : ℕ, i < n → (List.replicate n a).getD i d = a
  | 0, i, h => absurd h (Nat.not_lt_zero i)
  | n + 1, 0, _ => rfl
  | n + 1, i + 1, h => by
    rw [List.replicate_succ, List.getD_cons_succ]
    exact getD_replicate_of_lt a d n i (Nat.lt_of_succ_lt_succ h)

theorem traverseNorm_allNone : ∀ defs : List BDef,
    (∀ e ∈ defs, e = BDef.pyNone ∨ e = BDef.noneStr) →
    traverseNorm defs = some (List.replicate defs.length none)
  | [], _ => rfl
  | e :: rest, hall => by
    have h1 := traverseNorm_allNone rest (fun x hx => hall x (List.mem_cons_of_mem e hx))
    have h2 : normEntry e = some none := by
      rcases hall e (List.mem_cons_self e rest) with rfl | rfl <;> rfl
    simp only [traverseNorm, h1, h2, List.length_cons, List.replicate_succ]

theorem prodEnum_ones : ∀ L : List ℕ, (∀ x ∈ L, x = 1) →
    prodEnum L = [List.replicate L.length 0]
  | [], _ => rfl
  | s :: rest, hall => by
    have hs : s = 1 := hall s (List.mem_cons_self s rest)
    subst hs
    have h1 := prodEnum_ones rest (fun x hx => hall x (List.mem_cons_of_mem _ hx))
    simp only [prodEnum, h1, List.length_cons, List.replicate_succ]
    rfl

theorem comboList_ones (d : ℕ) : comboList (List.replicate d 1) = [List.replicate d 0] := by
  simp only [comboList, List.length_replicate]
  have hlen : (axesOrder d).length = d :=
    (axesOrder_perm d).length_eq.trans (List.length_range d)
  have h1 : (axesOrder d).map (fun n => (List.replicate d 1).getD n 0) =
      List.replicate d 1 := by
    have hv : ∀ n ∈ axesOrder d, (List.replicate d 1).getD n 0 = 1 := by
      intro n hn
      have hd : n < d := List.mem_range.mp ((axesOrder_perm d).mem_iff.mp hn)
      exact getD_replicate_of_lt 1 0 d n hd
    rw [List.map_congr_left hv, List.map_const', hlen]
  rw [h1, prodEnum_ones (List.replicate d 1) (fun x hx => List.eq_of_mem_replicate hx),
    List.length_replicate]
  simp only [List.map_cons, List.map_nil]
  congr 1
  have hv : ∀ n ∈ List.range d,
      (List.replicate d (0 : ℕ)).getD ((axesOrder d).indexOf n) 0 = 0 := by
    intro n _
    exact getD_replicate 0 d _
  rw [List.map_congr_left hv, List.map_const', List.length_range]

theorem zipWith_sub_zeros : ∀ c : List ℚ,
    List.zipWith (fun a s => a - s) c (List.replicate c.length 0) = c
  | [] => rfl
  | a :: t => by
    simp only [List.length_cons, List.replicate_succ, List.zipWith_cons_cons, sub_zero]
    rw [zipWith_sub_zeros t]

theorem splitRow_allNone (d : ℕ) (r : List ℚ) (hr : r.length = d + 1) :
    (VolumeBoundaries.mk d (List.replicate d none) [List.replicate d 0]
      (List.replicate d [0])).splitRow r = ((pyInt (r.headD 0) : ℤ) : ℚ) :: r.tail := by
  have hmatch : (VolumeBoundaries.mk d (List.replicate d none) [List.replicate d 0]
      (List.replicate d [0])).rowMatch (List.replicate d 0) r.tail = true := by
    unfold VolumeBoundaries.rowMatch
    rw [List.all_eq_true]
    intro n hn
    show binMatch ((List.replicate d (none : Option (List ℚ))).getD n none) _ _ = true
    rw [getD_replicate none d n]
    rfl
  have hms : (VolumeBoundaries.mk d (List.replicate d none) [List.replicate d 0]
      (List.replicate d [0])).matchingCombos r.tail = [(0, List.replicate d 0)] := by
    unfold VolumeBoundaries.matchingCombos
    have he : List.enum [List.replicate d (0 : ℕ)] = [(0, List.replicate d 0)] := rfl
    rw [show (VolumeBoundaries.mk d (List.replicate d none) [List.replicate d 0]
      (List.replicate d [0])).combo = [List.replicate d 0] from rfl, he]
    simp [List.filter_cons, hmatch]
  have hcs : (VolumeBoundaries.mk d (List.replicate d none) [List.replicate d 0]
      (List.replicate d [0])).comboIntShifts (List.replicate d 0) = List.replicate d 0 := by
    unfold VolumeBoundaries.comboIntShifts VolumeBoundaries.binShift
    have hv : ∀ n ∈ List.range d,
        (pyInt ((((VolumeBoundaries.mk d (List.replicate d none) [List.replicate d 0]
          (List.replicate d [0])).shifts.getD n []).getD
            ((List.replicate d (0 : ℕ)).getD n 0) 0)) : ℚ) = 0 := by
      intro n hn
      show (pyInt (((List.replicate d ([0] : List ℚ)).getD n []).getD
        ((List.replicate d (0 : ℕ)).getD n 0) 0) : ℚ) = 0
      rw [getD_replicate_of_lt ([0] : List ℚ) [] d n (List.mem_range.mp hn),
        getD_replicate 0 d n]
      norm_num [pyInt]
    rw [List.map_congr_left hv, List.map_const', List.length_range]
  simp only [VolumeBoundaries.splitRow, hms, List.getLast?_singleton, List.foldl_cons,
    List.foldl_nil, hcs]
  congr 1
  · have hV : (VolumeBoundaries.mk d (List.replicate d none) [List.replicate d 0]
        (List.replicate d [0])).num_volumes = 1 := rfl
    rw [hV]
    norm_num
  · have hlen : r.tail.length = d := by
      rw [List.length_tail, hr]
      omega
    rw [← hlen]
    exact zipWith_sub_zeros r.tail

/-- C6: for a configuration in which every dimension has no boundary,
`split` leaves every coordinate unchanged and replaces column 0 by
`int(0 + batch_id * 1)`; on integer batch ids (the only ones the collate
function produces) it is therefore the identity on every row, up to the
`np.int32` dtype of the virtual-batch-id column. -/
theorem c6_boundary_free_identity (defs : List BDef) (vb : VolumeBoundaries)
    (post : List BDef) (h : VolumeBoundaries.init defs = some (vb, post))
    (hall : ∀ e ∈ defs, e = BDef.pyNone ∨ e = BDef.noneStr)
    (voxels : List (List ℚ)) (hshape : ∀ r ∈ voxels, r.length = vb.dim + 1) :
    vb.splitRows voxels = voxels.map (fun r => ((pyInt (r.headD 0) : ℤ) : ℚ) :: r.tail) ∧
    ((∀ r ∈ voxels, (r.headD 0).den = 1) → vb.splitRows voxels = voxels) := by
  obtain ⟨bs, ht, hvb, hpost, hne⟩ := init_inv defs vb post h
  rw [traverseNorm_allNone defs hall] at ht
  injection ht with ht1
  have hvb2 : vb = VolumeBoundaries.mk defs.length (List.replicate defs.length none)
      [List.replicate defs.length 0] (List.replicate defs.length [0]) := by
    rw [hvb, ← ht1, List.map_replicate, List.map_replicate]
    have hbc : binCount none = 1 := rfl
    have hds : dimShifts none = [0] := rfl
    rw [hbc, hds, comboList_ones]
  have hdim : vb.dim = defs.length := by rw [hvb2]
  have hmain : vb.splitRows voxels =
      voxels.map (fun r => ((pyInt (r.headD 0) : ℤ) : ℚ) :: r.tail) := by
    unfold VolumeBoundaries.splitRows
    apply List.map_congr_left
    intro r hrv
    have hr : r.length = defs.length + 1 := by rw [← hdim]; exact hshape r hrv
    rw [hvb2]
    exact splitRow_allNone defs.length r hr
  refine ⟨hmain, ?_⟩
  intro hden
  rw [hmain]
  have hid : ∀ r ∈ voxels, ((pyInt (r.headD 0) : ℤ) : ℚ) :: r.tail = id r := by
    intro r hrv
    have hc : ((pyInt (r.headD 0) : ℤ) : ℚ) = r.headD 0 :=
      pyInt_cast_of_den_one _ (hden r hrv)
    rw [hc]
    cases r with
    | nil =>
      have h0 := hshape _ hrv
      simp at h0
    | cons a t => rfl
  rw [List.map_congr_left hid, List.map_id]

theorem c6_boundary_free_identity_witness :
    VolumeBoundaries.init [BDef.pyNone, BDef.noneStr] =
      some (vbOfDefs [BDef.pyNone, BDef.noneStr], [BDef.pyNone, BDef.pyNone]) ∧
    (∀ e ∈ [BDef.pyNone, BDef.noneStr], e = BDef.pyNone ∨ e = BDef.noneStr) ∧
    (∀ r ∈ [[(2:ℚ),7,9]], r.length = (vbOfDefs [BDef.pyNone, BDef.noneStr]).dim + 1) ∧
    ((vbOfDefs [BDef.pyNone, BDef.noneStr]).splitRows [[(2:ℚ),7,9]] =
      [[(2:ℚ),7,9]].map (fun r => ((pyInt (r.headD 0) : ℤ) : ℚ) :: r.tail) ∧
      ((∀ r ∈ [[(2:ℚ),7,9]], (r.headD 0).den = 1) →
        (vbOfDefs [BDef.pyNone, BDef.noneStr]).splitRows [[(2:ℚ),7,9]] = [[(2:ℚ),7,9]])) :=
  ⟨by decide, by decide, by decide,
    c6_boundary_free_identity [BDef.pyNone, BDef.noneStr]
      (vbOfDefs [BDef.pyNone, BDef.noneStr]) [BDef.pyNone, BDef.pyNone] (by decide)
      (by decide) [[(2:ℚ),7,9]] (by decide)⟩

end RatEval
